import Mathlib

/-!
Verification of the architecture mutation and deployment orchestration subsystem
of the Infra-Agent repository.

The repository ships the frontend sources (TypeScript, under src/frontend and the
unnamed parts) together with documentation of the backend; the backend modules
themselves (Graph Validator, Graph Store, Deployment Engine, Concurrency Guard,
Log Streamer) are documented in spec.md and the design documents but their code
is not part of the source tree. Definitions for those components are therefore
modelled from the spec text, as marked in their doc comments. Frontend logic
(connection rules, canvas edge creation, chat dispatch) is embedded directly
from the TypeScript sources.
-/

/-! ## Graph data model (spec section 3) -/

/-- A service node of an Architecture: id, service type, label and an opaque
configuration map (modelled as a key-value list). -/
structure ServiceNode where
  id : String
  serviceType : String
  label : String
  config : List (String × String)
deriving DecidableEq, Repr

/-- A directed edge of an Architecture. -/
structure Edge where
  source : String
  target : String
  label : String
deriving DecidableEq, Repr

/-- A versioned Architecture for one project. -/
structure Architecture where
  projectId : Nat
  version : Nat
  nodes : List ServiceNode
  edges : List Edge
  createdAt : Nat
deriving DecidableEq, Repr

/-- The closed whitelist of supported service types; the repository README
(src/unnamed/part_007) lists the 14 approved services. -/
def serviceWhitelist : List String :=
  ["lambda", "api_gateway", "dynamodb", "rds", "ecs", "s3", "cloudfront",
   "sqs", "sns", "elasticache", "vpc", "elb", "route53", "ecr"]

/-- Stable error codes of the validation report (spec section 6). -/
inductive ValidationError where
  | UnsupportedService (nodeId : String) (serviceType : String)
  | DuplicateNode (nodeId : String)
  | DanglingEdge (source : String) (target : String)
  | SelfLoop (nodeId : String)
  | DuplicateEdge (source : String) (target : String)
  | CircularDependency (cycle : List String)
deriving DecidableEq, Repr

/-- Result of validate (spec section 4.1). -/
structure ValidationResult where
  valid : Bool
  errors : List ValidationError
  warnings : List String
deriving DecidableEq, Repr

/-! ## Cycle detection (spec section 4.1, check 6)

Modelled from the spec: DFS over the directed edge set with a three-color
visitation marking. White nodes are those not yet reached, gray nodes are the
in-progress nodes held on the explicit DFS stack of frames (a frame is a gray
node together with its not-yet-processed successor list, deepest frame first),
black nodes are the finished nodes in the order they finished. A back edge to
a gray node yields the full cycle node sequence. -/

/-- Successor list of a node in the directed edge set. -/
def nodeSucc (edges : List Edge) (v : String) : List String :=
  (edges.filter (fun e => e.source == v)).map (fun e => e.target)

/-- The gray nodes: the nodes of the DFS stack frames, deepest first. -/
def grayOf (frames : List (String × List String)) : List String := frames.map Prod.fst

/-- Number of white nodes: universe members that are neither gray nor black. -/
def whiteCount (U : List String) (frames : List (String × List String))
    (black : List String) : Nat :=
  (U.toFinset \ ((grayOf frames).toFinset ∪ black.toFinset)).card

/-- Termination measure for the DFS loop: pending successor entries, stack
depth, and a weighted count of white nodes. -/
def dfsPhi (edges : List Edge) (U : List String) (frames : List (String × List String))
    (black : List String) : Nat :=
  (frames.map (fun f => f.2.length)).sum + frames.length
    + (edges.length + 2) * whiteCount U frames black

lemma nodeSucc_length_le (edges : List Edge) (v : String) :
    (nodeSucc edges v).length ≤ edges.length := by
  unfold nodeSucc
  simp only [List.length_map]
  exact List.length_filter_le _ _

lemma whiteCount_pop (U : List String) (v : String) (rest : List (String × List String))
    (black : List String) :
    whiteCount U rest (black ++ [v]) = whiteCount U ((v, ([] : List String)) :: rest) black := by
  unfold whiteCount grayOf
  congr 1
  ext a
  simp
  tauto

lemma whiteCount_push (U : List String) (v w : String) (ws succw : List String)
    (rest : List (String × List String)) (black : List String)
    (hg : w ∉ grayOf ((v, w :: ws) :: rest)) (hb : w ∉ black) (hu : w ∈ U) :
    whiteCount U ((v, w :: ws) :: rest) black
      = whiteCount U ((w, succw) :: (v, ws) :: rest) black + 1 := by
  unfold whiteCount grayOf
  unfold grayOf at hg
  have hset : (U.toFinset \ (((((w, succw) :: (v, ws) :: rest)).map Prod.fst).toFinset ∪ black.toFinset))
      = (U.toFinset \ (((((v, w :: ws) :: rest)).map Prod.fst).toFinset ∪ black.toFinset)) \ {w} := by
    ext a
    simp
    tauto
  rw [hset]
  have hw : w ∈ U.toFinset \ (((((v, w :: ws) :: rest)).map Prod.fst).toFinset ∪ black.toFinset) := by
    simp at hg ⊢
    tauto
  have hsub : ({w} : Finset String) ⊆ _ := Finset.singleton_subset_iff.mpr hw
  rw [Finset.card_sdiff hsub]
  have hpos : 0 < (U.toFinset \ (((((v, w :: ws) :: rest)).map Prod.fst).toFinset ∪ black.toFinset)).card :=
    Finset.card_pos.mpr ⟨w, hw⟩
  rw [Finset.card_singleton]
  omega

/-- Modelled from the spec: the DFS worker loop. A frame holds a gray node and
its pending successors. Processing a successor that is gray reports the cycle
(the gray stack from that node back to itself); a black successor is skipped;
a white successor is pushed with its own successor list. When a frame has no
pending successors its node turns black. On success the black list (finish
order) is returned. -/
def dfsLoop (edges : List Edge) (U : List String) :
    List (String × List String) → List String → Except (List String) (List String)
  | [], black => .ok black
  | (v, []) :: rest, black => dfsLoop edges U rest (black ++ [v])
  | (v, w :: ws) :: rest, black =>
    if hg : w ∈ grayOf ((v, w :: ws) :: rest) then
      .error ((grayOf ((v, w :: ws) :: rest)).reverse.dropWhile (fun x => x != w) ++ [w])
    else if hb : w ∈ black then
      dfsLoop edges U ((v, ws) :: rest) black
    else if hu : w ∈ U then
      dfsLoop edges U ((w, nodeSucc edges w) :: (v, ws) :: rest) black
    else
      dfsLoop edges U ((v, ws) :: rest) black
termination_by frames black => dfsPhi edges U frames black
decreasing_by
  · unfold dfsPhi
    rw [whiteCount_pop]
    simp_arith
  · unfold dfsPhi
    have hwc : whiteCount U ((v, ws) :: rest) black = whiteCount U ((v, w :: ws) :: rest) black := rfl
    rw [hwc]
    simp_arith
  · unfold dfsPhi
    rw [whiteCount_push U v w ws (nodeSucc edges w) rest black hg hb hu]
    have hle := nodeSucc_length_le edges w
    simp only [List.map_cons, List.sum_cons, List.length_cons, Nat.mul_succ]
    omega
  · unfold dfsPhi
    have hwc : whiteCount U ((v, ws) :: rest) black = whiteCount U ((v, w :: ws) :: rest) black := rfl
    rw [hwc]
    simp_arith

/-- Modelled from the spec: the DFS driver iterates over all roots, starting a
fresh traversal at every node that is still white. -/
def dfsAll (edges : List Edge) (U : List String) :
    List String → List String → Except (List String) (List String)
  | [], black => .ok black
  | r :: rs, black =>
    if r ∈ black then dfsAll edges U rs black
    else
      match dfsLoop edges U [(r, nodeSucc edges r)] black with
      | .error c => .error c
      | .ok black2 => dfsAll edges U rs black2

/-- Modelled from the spec: cycle detection over the directed edge set; returns
the cycle node sequence when a back edge to an in-progress node is found. The
traversal universe covers the declared node ids and every edge endpoint. -/
def detectCycle (edges : List Edge) (nodeIds : List String) : Option (List String) :=
  let U := nodeIds ++ edges.map (fun e => e.source) ++ edges.map (fun e => e.target)
  match dfsAll edges U U [] with
  | .error c => some c
  | .ok _ => none

/-! ## The validator (spec section 4.1)

Modelled from the spec: validate never mutates its input and runs the six
checks in order, accumulating the errors of every check. -/

/-- The node id list of an Architecture. -/
def archNodeIds (a : Architecture) : List String := a.nodes.map (fun n => n.id)

/-- Check 1: every serviceType is in the whitelist. -/
def checkUnsupported (a : Architecture) : List ValidationError :=
  (a.nodes.filter (fun n => !(serviceWhitelist.contains n.serviceType))).map
    (fun n => .UnsupportedService n.id n.serviceType)

/-- Check 2: no duplicate node ids. -/
def checkDuplicateNodes (a : Architecture) : List ValidationError :=
  (((archNodeIds a).filter (fun i => 2 ≤ (archNodeIds a).count i)).dedup).map
    (fun i => .DuplicateNode i)

/-- Check 3: every edge endpoint resolves to an existing node. -/
def checkDanglingEdges (a : Architecture) : List ValidationError :=
  (a.edges.filter
      (fun e => !((archNodeIds a).contains e.source) || !((archNodeIds a).contains e.target))).map
    (fun e => .DanglingEdge e.source e.target)

/-- Check 4: no self-loop edges. -/
def checkSelfLoops (a : Architecture) : List ValidationError :=
  (a.edges.filter (fun e => e.source == e.target)).map (fun e => .SelfLoop e.source)

/-- The ordered (source, target) pair list of the edges. -/
def edgePairs (a : Architecture) : List (String × String) :=
  a.edges.map (fun e => (e.source, e.target))

/-- Check 5: no duplicate (source, target) edge pairs. -/
def checkDuplicateEdges (a : Architecture) : List ValidationError :=
  (((edgePairs a).filter (fun p => 2 ≤ (edgePairs a).count p)).dedup).map
    (fun p => .DuplicateEdge p.1 p.2)

/-- Check 6: cycle detection over the directed edge set. -/
def checkCycles (a : Architecture) : List ValidationError :=
  match detectCycle a.edges (archNodeIds a) with
  | some c => [.CircularDependency c]
  | none => []

/-- Modelled from the spec: the Graph Validator contract
validate(Architecture) -> ValidationResult. Checks run in order 1 to 6 and
errors accumulate; the result is valid exactly when no check produced an
error. -/
def validate (a : Architecture) : ValidationResult :=
  let errors := checkUnsupported a ++ checkDuplicateNodes a ++ checkDanglingEdges a
    ++ checkSelfLoops a ++ checkDuplicateEdges a ++ checkCycles a
  { valid := errors.isEmpty, errors := errors, warnings := [] }

/-! ## Correctness infrastructure for the DFS -/

/-- The black list is good: every successor of a black node is black and
finished strictly earlier. A good black list that covers a set of nodes
witnesses a reverse topological order, hence acyclicity on that set. -/
def blackGood (edges : List Edge) (black : List String) : Prop :=
  ∀ u ∈ black, ∀ w ∈ nodeSucc edges u, w ∈ black ∧ black.indexOf w < black.indexOf u

/-- Frame invariant: in each frame, every successor of the frame node is
either still pending in the frame, already black, or gray at a strictly
deeper position (collected in the accumulator). -/
def framesOk (edges : List Edge) (black : List String) :
    List (String × List String) → List String → Prop
  | [], _ => True
  | (v, todo) :: rest, below =>
      (∀ w ∈ nodeSucc edges v, w ∈ todo ∨ w ∈ black ∨ w ∈ below) ∧
      framesOk edges black rest (v :: below)

lemma framesOk_mono (edges : List Edge) {black black2 bs bs2 : List String}
    {frames : List (String × List String)}
    (hmono : ∀ x, x ∈ black ∨ x ∈ bs → x ∈ black2 ∨ x ∈ bs2)
    (h : framesOk edges black frames bs) : framesOk edges black2 frames bs2 := by
  induction frames generalizing bs bs2 with
  | nil => trivial
  | cons f rest ih =>
    obtain ⟨v, todo⟩ := f
    obtain ⟨h1, h2⟩ := h
    constructor
    · intro w hw
      rcases h1 w hw with h | h | h
      · exact Or.inl h
      · rcases hmono w (Or.inl h) with h | h
        · exact Or.inr (Or.inl h)
        · exact Or.inr (Or.inr h)
      · rcases hmono w (Or.inr h) with h | h
        · exact Or.inr (Or.inl h)
        · exact Or.inr (Or.inr h)
    · refine ih ?_ h2
      intro x hx
      rcases hx with h | h
      · rcases hmono x (Or.inl h) with h | h
        · exact Or.inl h
        · exact Or.inr (List.mem_cons_of_mem _ h)
      · rcases List.mem_cons.mp h with h | h
        · exact Or.inr (h ▸ List.mem_cons_self _ _)
        · rcases hmono x (Or.inr h) with h | h
          · exact Or.inl h
          · exact Or.inr (List.mem_cons_of_mem _ h)

lemma blackGood_append (edges : List Edge) {black : List String} {v : String}
    (hgood : blackGood edges black) (hv : v ∉ black)
    (hsucc : ∀ w ∈ nodeSucc edges v, w ∈ black) :
    blackGood edges (black ++ [v]) := by
  intro u hu w hw
  rcases List.mem_append.mp hu with hu | hu
  · obtain ⟨hwb, hlt⟩ := hgood u hu w hw
    refine ⟨List.mem_append.mpr (Or.inl hwb), ?_⟩
    rw [List.indexOf_append_of_mem hwb, List.indexOf_append_of_mem hu]
    exact hlt
  · simp only [List.mem_singleton] at hu
    subst hu
    have hwb := hsucc w hw
    refine ⟨List.mem_append.mpr (Or.inl hwb), ?_⟩
    rw [List.indexOf_append_of_mem hwb, List.indexOf_append_of_not_mem hv]
    have hlen := List.indexOf_lt_length.mpr hwb
    simp only [List.indexOf_cons_self, Nat.add_zero]
    omega

lemma dfsLoop_ok_spec (edges : List Edge) (U : List String)
    (htarget : ∀ e ∈ edges, e.target ∈ U) :
    ∀ frames black,
      (∀ f ∈ frames, ∀ w ∈ f.2, w ∈ U) →
      (grayOf frames).Nodup →
      (∀ x ∈ grayOf frames, x ∉ black) →
      black.Nodup →
      blackGood edges black →
      framesOk edges black frames [] →
      ∀ black2, dfsLoop edges U frames black = .ok black2 →
      blackGood edges black2 ∧ black2.Nodup ∧ (∃ t, black2 = black ++ t) ∧
        (∀ f ∈ frames, f.1 ∈ black2) := by
  intro frames black
  induction frames, black using dfsLoop.induct edges U with
  | case1 black =>
    intro _ _ _ hbnd hgood _ black2 hrun
    simp only [dfsLoop] at hrun
    cases hrun
    exact ⟨hgood, hbnd, ⟨[], by simp⟩, by simp⟩
  | case2 v rest black ih =>
    intro htodoU hgnd hgb hbnd hgood hfok black2 hrun
    simp only [dfsLoop] at hrun
    obtain ⟨hhead, htail⟩ := hfok
    have hv_gray : v ∈ grayOf ((v, ([] : List String)) :: rest) := by
      simp [grayOf]
    have hv_black : v ∉ black := hgb v hv_gray
    have hsucc : ∀ w ∈ nodeSucc edges v, w ∈ black := by
      intro w hw
      rcases hhead w hw with h | h | h
      · exact absurd h (List.not_mem_nil w)
      · exact h
      · exact absurd h (List.not_mem_nil w)
    have hgood2 : blackGood edges (black ++ [v]) := blackGood_append edges hgood hv_black hsucc
    have hbnd2 : (black ++ [v]).Nodup := by
      simp [List.nodup_append, hbnd, hv_black]
    have hgnd2 : (grayOf rest).Nodup := by
      have : grayOf ((v, ([] : List String)) :: rest) = v :: grayOf rest := by simp [grayOf]
      rw [this] at hgnd
      exact hgnd.of_cons
    have hvnotrest : v ∉ grayOf rest := by
      have : grayOf ((v, ([] : List String)) :: rest) = v :: grayOf rest := by simp [grayOf]
      rw [this] at hgnd
      exact (List.nodup_cons.mp hgnd).1
    have hgb2 : ∀ x ∈ grayOf rest, x ∉ black ++ [v] := by
      intro x hx
      have hx2 : x ∈ grayOf ((v, ([] : List String)) :: rest) := by
        simp [grayOf] at hx ⊢
        exact Or.inr hx
      intro hmem
      rcases List.mem_append.mp hmem with h | h
      · exact hgb x hx2 h
      · simp only [List.mem_singleton] at h
        subst h
        exact hvnotrest hx
    have hfok2 : framesOk edges (black ++ [v]) rest [] := by
      refine framesOk_mono edges ?_ htail
      intro x hx
      rcases hx with h | h
      · exact Or.inl (List.mem_append.mpr (Or.inl h))
      · simp only [List.mem_singleton] at h
        exact Or.inl (List.mem_append.mpr (Or.inr (by simp [h])))
    have htodoU2 : ∀ f ∈ rest, ∀ w ∈ f.2, w ∈ U := by
      intro f hf
      exact htodoU f (List.mem_cons_of_mem _ hf)
    obtain ⟨g1, g2, ⟨t, ht⟩, g4⟩ := ih htodoU2 hgnd2 hgb2 hbnd2 hgood2 hfok2 black2 hrun
    refine ⟨g1, g2, ⟨v :: t, by simp [ht]⟩, ?_⟩
    intro f hf
    rcases List.mem_cons.mp hf with h | h
    · subst h
      have hm : v ∈ black ++ [v] := List.mem_append.mpr (Or.inr (by simp))
      rw [ht]
      exact List.mem_append.mpr (Or.inl hm)
    · exact g4 f h
  | case3 v w ws rest black hg =>
    intro _ _ _ _ _ _ black2 hrun
    simp only [dfsLoop, dif_pos hg] at hrun
    exact Except.noConfusion hrun
  | case4 v w ws rest black hg hb ih =>
    intro htodoU hgnd hgb hbnd hgood hfok black2 hrun
    simp only [dfsLoop, dif_neg hg, dif_pos hb] at hrun
    obtain ⟨hhead, htail⟩ := hfok
    have hfok2 : framesOk edges black ((v, ws) :: rest) [] := by
      constructor
      · intro x hx
        rcases hhead x hx with h | h | h
        · rcases List.mem_cons.mp h with h | h
          · exact Or.inr (Or.inl (h ▸ hb))
          · exact Or.inl h
        · exact Or.inr (Or.inl h)
        · exact absurd h (List.not_mem_nil x)
      · exact htail
    have htodoU2 : ∀ f ∈ (v, ws) :: rest, ∀ x ∈ f.2, x ∈ U := by
      intro f hf x hx
      rcases List.mem_cons.mp hf with h | h
      · subst h
        exact htodoU (v, w :: ws) (List.mem_cons_self _ _) x (List.mem_cons_of_mem _ hx)
      · exact htodoU f (List.mem_cons_of_mem _ h) x hx
    have hgnd2 : (grayOf ((v, ws) :: rest)).Nodup := hgnd
    have hgb2 : ∀ x ∈ grayOf ((v, ws) :: rest), x ∉ black := hgb
    obtain ⟨g1, g2, g3, g4⟩ := ih htodoU2 hgnd2 hgb2 hbnd hgood hfok2 black2 hrun
    refine ⟨g1, g2, g3, ?_⟩
    intro f hf
    rcases List.mem_cons.mp hf with h | h
    · subst h
      exact g4 (v, ws) (List.mem_cons_self _ _)
    · exact g4 f (List.mem_cons_of_mem _ h)
  | case5 v w ws rest black hg hb hu ih =>
    intro htodoU hgnd hgb hbnd hgood hfok black2 hrun
    simp only [dfsLoop, dif_neg hg, dif_neg hb, dif_pos hu] at hrun
    obtain ⟨hhead, htail⟩ := hfok
    have hfok2 : framesOk edges black ((w, nodeSucc edges w) :: (v, ws) :: rest) [] := by
      refine ⟨?_, ?_, ?_⟩
      · intro x hx
        exact Or.inl hx
      · intro x hx
        rcases hhead x hx with h | h | h
        · rcases List.mem_cons.mp h with h | h
          · exact Or.inr (Or.inr (by simp [h]))
          · exact Or.inl h
        · exact Or.inr (Or.inl h)
        · exact absurd h (List.not_mem_nil x)
      · refine framesOk_mono edges ?_ htail
        intro x hx
        rcases hx with h | h
        · exact Or.inl h
        · rcases List.mem_cons.mp h with h | h
          · exact Or.inr (by simp [h])
          · exact absurd h (List.not_mem_nil x)
    have htodoU2 : ∀ f ∈ (w, nodeSucc edges w) :: (v, ws) :: rest, ∀ x ∈ f.2, x ∈ U := by
      intro f hf x hx
      rcases List.mem_cons.mp hf with h | h
      · subst h
        simp only [nodeSucc, List.mem_map, List.mem_filter] at hx
        obtain ⟨e, ⟨he, _⟩, hex⟩ := hx
        exact hex ▸ htarget e he
      · rcases List.mem_cons.mp h with h | h
        · subst h
          exact htodoU (v, w :: ws) (List.mem_cons_self _ _) x (List.mem_cons_of_mem _ hx)
        · exact htodoU f (List.mem_cons_of_mem _ h) x hx
    have hgrayeq : grayOf ((w, nodeSucc edges w) :: (v, ws) :: rest) = w :: grayOf ((v, ws) :: rest) := by
      simp [grayOf]
    have hgnd2 : (grayOf ((w, nodeSucc edges w) :: (v, ws) :: rest)).Nodup := by
      rw [hgrayeq]
      exact List.nodup_cons.mpr ⟨hg, hgnd⟩
    have hgb2 : ∀ x ∈ grayOf ((w, nodeSucc edges w) :: (v, ws) :: rest), x ∉ black := by
      intro x hx
      rw [hgrayeq] at hx
      rcases List.mem_cons.mp hx with h | h
      · exact h ▸ hb
      · exact hgb x h
    obtain ⟨g1, g2, g3, g4⟩ := ih htodoU2 hgnd2 hgb2 hbnd hgood hfok2 black2 hrun
    refine ⟨g1, g2, g3, ?_⟩
    intro f hf
    rcases List.mem_cons.mp hf with h | h
    · subst h
      exact g4 (v, ws) (List.mem_cons_of_mem _ (List.mem_cons_self _ _))
    · exact g4 f (List.mem_cons_of_mem _ (List.mem_cons_of_mem _ h))
  | case6 v w ws rest black hg hb hu ih =>
    intro htodoU _ _ _ _ _ black2 _
    exact absurd (htodoU (v, w :: ws) (List.mem_cons_self _ _) w (List.mem_cons_self _ _)) hu

lemma dfsAll_ok_spec (edges : List Edge) (U : List String)
    (htarget : ∀ e ∈ edges, e.target ∈ U) :
    ∀ roots black,
      black.Nodup →
      blackGood edges black →
      ∀ black2, dfsAll edges U roots black = .ok black2 →
      blackGood edges black2 ∧ black2.Nodup ∧ (∃ t, black2 = black ++ t) ∧
        (∀ r ∈ roots, r ∈ black2) := by
  intro roots black
  induction roots, black using dfsAll.induct edges U with
  | case1 black =>
    intro hbnd hgood black2 hrun
    simp only [dfsAll] at hrun
    cases hrun
    exact ⟨hgood, hbnd, ⟨[], by simp⟩, by simp⟩
  | case2 r rs black hr ih =>
    intro hbnd hgood black2 hrun
    simp only [dfsAll, if_pos hr] at hrun
    obtain ⟨g1, g2, ⟨t, ht⟩, g4⟩ := ih hbnd hgood black2 hrun
    refine ⟨g1, g2, ⟨t, ht⟩, ?_⟩
    intro x hx
    rcases List.mem_cons.mp hx with h | h
    · subst h
      rw [ht]
      exact List.mem_append.mpr (Or.inl hr)
    · exact g4 x h
  | case3 r rs black hr c hloop =>
    intro hbnd hgood black2 hrun
    simp only [dfsAll, if_neg hr, hloop] at hrun
    exact Except.noConfusion hrun
  | case4 r rs black hr blackMid hloop ih =>
    intro hbnd hgood black2 hrun
    simp only [dfsAll, if_neg hr, hloop] at hrun
    have hspec := dfsLoop_ok_spec edges U htarget [(r, nodeSucc edges r)] black
      (by
        intro f hf x hx
        rcases List.mem_cons.mp hf with h | h
        · subst h
          simp only [nodeSucc, List.mem_map, List.mem_filter] at hx
          obtain ⟨e, ⟨he, _⟩, hex⟩ := hx
          exact hex ▸ htarget e he
        · exact absurd h (List.not_mem_nil f))
      (by simp [grayOf])
      (by
        intro x hx
        simp only [grayOf, List.map_cons, List.map_nil, List.mem_singleton] at hx
        exact hx ▸ hr)
      hbnd hgood
      (by
        refine ⟨?_, trivial⟩
        intro x hx
        exact Or.inl hx)
      blackMid hloop
    obtain ⟨m1, m2, ⟨t, ht⟩, m4⟩ := hspec
    obtain ⟨g1, g2, ⟨t2, ht2⟩, g4⟩ := ih m2 m1 black2 hrun
    refine ⟨g1, g2, ⟨t ++ t2, by rw [ht2, ht, List.append_assoc]⟩, ?_⟩
    intro x hx
    rcases List.mem_cons.mp hx with h | h
    · subst h
      have hrmid : x ∈ blackMid := m4 (x, nodeSucc edges x) (List.mem_cons_self _ _)
      rw [ht2]
      exact List.mem_append.mpr (Or.inl hrmid)
    · exact g4 x h

/-- One step along the directed edge set. -/
def EdgeStep (edges : List Edge) (a b : String) : Prop :=
  ∃ e ∈ edges, e.source = a ∧ e.target = b

lemma edgeStep_iff_nodeSucc (edges : List Edge) (a b : String) :
    EdgeStep edges a b ↔ b ∈ nodeSucc edges a := by
  unfold EdgeStep nodeSucc
  simp only [List.mem_map, List.mem_filter, beq_iff_eq]
  constructor
  · rintro ⟨e, he, hs, ht⟩
    exact ⟨e, ⟨he, hs⟩, ht⟩
  · rintro ⟨e, ⟨he, hs⟩, ht⟩
    exact ⟨e, he, hs, ht⟩

lemma blackGood_no_cycle (edges : List Edge) {black : List String}
    (hgood : blackGood edges black) {v : String} (hv : v ∈ black)
    (hcyc : Relation.TransGen (EdgeStep edges) v v) : False := by
  have key : ∀ a b : String, Relation.TransGen (EdgeStep edges) a b → a ∈ black →
      b ∈ black ∧ black.indexOf b < black.indexOf a := by
    intro a b h
    induction h with
    | single hstep =>
      intro ha
      exact hgood a ha _ ((edgeStep_iff_nodeSucc edges _ _).mp hstep)
    | tail hab hbc ih =>
      intro ha
      obtain ⟨hb, hlt⟩ := ih ha
      obtain ⟨hc, hlt2⟩ := hgood _ hb _ ((edgeStep_iff_nodeSucc edges _ _).mp hbc)
      exact ⟨hc, lt_trans hlt2 hlt⟩
  obtain ⟨_, hlt⟩ := key v v hcyc hv
  omega

lemma transGen_first_step {edges : List Edge} {a b : String}
    (h : Relation.TransGen (EdgeStep edges) a b) : ∃ c, EdgeStep edges a c := by
  induction h with
  | single hstep => exact ⟨_, hstep⟩
  | tail _ _ ih => exact ih

/-- Completeness of the DFS cycle detection: any cycle in the directed edge
set is detected. -/
theorem detectCycle_complete (edges : List Edge) (nodeIds : List String)
    (v : String) (hcyc : Relation.TransGen (EdgeStep edges) v v) :
    ∃ c, detectCycle edges nodeIds = some c := by
  unfold detectCycle
  rcases hall : dfsAll edges (nodeIds ++ edges.map (fun e => e.source) ++ edges.map (fun e => e.target))
      (nodeIds ++ edges.map (fun e => e.source) ++ edges.map (fun e => e.target)) [] with c | black2
  · exact ⟨c, by simp only [hall]⟩
  · exfalso
    have htarget : ∀ e ∈ edges, e.target ∈
        nodeIds ++ edges.map (fun e => e.source) ++ edges.map (fun e => e.target) := by
      intro e he
      refine List.mem_append.mpr (Or.inr ?_)
      exact List.mem_map.mpr ⟨e, he, rfl⟩
    obtain ⟨g1, g2, _, g4⟩ := dfsAll_ok_spec edges _ htarget _ [] List.nodup_nil
      (by intro u hu; exact absurd hu (List.not_mem_nil u)) black2 hall
    obtain ⟨c, e, he, hs, _⟩ := transGen_first_step hcyc
    have hvU : v ∈ nodeIds ++ edges.map (fun e => e.source) ++ edges.map (fun e => e.target) := by
      refine List.mem_append.mpr (Or.inl (List.mem_append.mpr (Or.inr ?_)))
      exact List.mem_map.mpr ⟨e, he, hs⟩
    exact blackGood_no_cycle edges g1 (g4 v hvU) hcyc

/-! ## Graph Store (spec sections 3 and 4.2)

The Graph Store keeps one append-only, versioned Architecture history per
project; the edit path replaces the whole graph and persists it as
version + 1 of the latest, guarded by an atomic compare-and-swap on the
version. The backend Graph Store implementation is not in the source tree,
so it is modelled from the spec text. -/

/-- Candidate replacement graph content produced by the edit pipeline. -/
structure ArchPayload where
  nodes : List ServiceNode
  edges : List Edge
deriving DecidableEq, Repr

/-- Outcome of an edit attempt against the Graph Store. -/
inductive EditOutcome where
  | ok (arch : Architecture)
  | versionConflict (latestVersion : Nat)
deriving DecidableEq, Repr

/-- Modelled from the spec: the atomic compare-and-swap write of the Graph
Store. If the latest version still equals the base version the writer read,
the candidate is persisted as version + 1 and appended to the history;
otherwise the writer receives VersionConflict carrying the current latest
version and the history is untouched. An edit against an empty history (no
architecture generated yet) cannot match any latest version and is likewise
rejected. -/
def casEdit (history : List Architecture) (projectId baseVersion : Nat)
    (payload : ArchPayload) (now : Nat) : EditOutcome × List Architecture :=
  match history.getLast? with
  | none => (.versionConflict 0, history)
  | some cur =>
    if cur.version = baseVersion then
      let newArch : Architecture :=
        { projectId := projectId, version := cur.version + 1,
          nodes := payload.nodes, edges := payload.edges, createdAt := now }
      (.ok newArch, history ++ [newArch])
    else
      (.versionConflict cur.version, history)

/-- The per-project version history forms a chain with step one: each entry
has the version of its predecessor plus one. -/
def versionChain : List Architecture → Bool
  | [] => true
  | [_] => true
  | a :: b :: rest => (b.version == a.version + 1) && versionChain (b :: rest)

/-- Run a sequence of edit calls against one project; each entry carries the
base version the caller read, the candidate payload and a timestamp. -/
def runEdits (history : List Architecture) (projectId : Nat) :
    List (Nat × ArchPayload × Nat) → List Architecture
  | [] => history
  | (base, payload, now) :: rest =>
      runEdits (casEdit history projectId base payload now).2 projectId rest

/-! ## Deployment Engine and Concurrency Guard (spec sections 4.3 and 4.4)

The backend Deployment Engine is not in the source tree; it is modelled from
the spec text. -/

/-- Lifecycle states of a deployment job. -/
inductive JobState where
  | Pending
  | Running
  | Succeeded
  | Failed
deriving DecidableEq, Repr

/-- The two deployment actions. -/
inductive JobAction where
  | Apply
  | Destroy
deriving DecidableEq, Repr

/-- One apply or destroy execution attempt. -/
structure DeploymentJob where
  id : Nat
  projectId : Nat
  action : JobAction
  state : JobState
deriving DecidableEq, Repr

/-- A job holds the per-project lock exactly while Pending or Running. -/
def isActive (s : JobState) : Bool :=
  s == .Pending || s == .Running

/-- Terminal states. -/
def isTerminal (s : JobState) : Bool :=
  s == .Succeeded || s == .Failed

/-- Modelled from the spec: the Concurrency Guard admission check, true when
some job of the project is Pending or Running. -/
def activeJobFor (jobs : List DeploymentJob) (pid : Nat) : Bool :=
  jobs.any (fun j => j.projectId == pid && isActive j.state)

/-- Outcome of a deployment request. -/
inductive RequestResult where
  | admitted (job : DeploymentJob)
  | deploymentInProgress
deriving DecidableEq, Repr

/-- Modelled from the spec: requestApply and requestDestroy admission. A
request is rejected with DeploymentInProgress when the Concurrency Guard
shows an active job for the project and no job is created; otherwise a new
DeploymentJob is created in Pending and recorded. -/
def requestJob (jobs : List DeploymentJob) (pid : Nat) (act : JobAction) (newId : Nat) :
    RequestResult × List DeploymentJob :=
  if activeJobFor jobs pid then
    (.deploymentInProgress, jobs)
  else
    let j : DeploymentJob := { id := newId, projectId := pid, action := act, state := .Pending }
    (.admitted j, jobs ++ [j])

/-- Modelled from the spec: requestApply(projectId). -/
def requestApply (jobs : List DeploymentJob) (pid newId : Nat) :
    RequestResult × List DeploymentJob :=
  requestJob jobs pid .Apply newId

/-- Modelled from the spec: requestDestroy(projectId). -/
def requestDestroy (jobs : List DeploymentJob) (pid newId : Nat) :
    RequestResult × List DeploymentJob :=
  requestJob jobs pid .Destroy newId

/-- Modelled from the spec: the permitted single-step transitions of the job
state machine, Pending to Running, Running to Succeeded, Running to Failed;
every other combination, in particular any step out of a terminal state, is
refused. -/
def stepJobState : JobState → JobState → Option JobState
  | .Pending, .Running => some .Running
  | .Running, .Succeeded => some .Succeeded
  | .Running, .Failed => some .Failed
  | _, _ => none

/-- Modelled from the spec: the engine applies one transition to the job with
the given id; a refused transition leaves the job unchanged. -/
def applyTransition (jobs : List DeploymentJob) (jobId : Nat) (target : JobState) :
    List DeploymentJob :=
  jobs.map (fun j =>
    if j.id = jobId then
      match stepJobState j.state target with
      | some s => { j with state := s }
      | none => j
    else j)

/-- An engine-level event: a deployment request or a job state transition. -/
inductive EngineOp where
  | request (pid : Nat) (act : JobAction) (newId : Nat)
  | transition (jobId : Nat) (target : JobState)

/-- Run a sequence of engine events over the job store. -/
def runEngine : List DeploymentJob → List EngineOp → List DeploymentJob
  | jobs, [] => jobs
  | jobs, .request pid act newId :: rest => runEngine (requestJob jobs pid act newId).2 rest
  | jobs, .transition jobId target :: rest => runEngine (applyTransition jobs jobId target) rest

/-! ## Destroy idempotence (spec section 4.3) -/

/-- Exit classification of one external tool run. -/
inductive ToolExit where
  | success
  | nothingToDestroy
  | otherFailure (code : Nat)
deriving DecidableEq, Repr

/-- Modelled from the spec: the engine treats a clean exit and the external
tool nothing-to-destroy exit codes as Succeeded for a destroy run, anything
else as Failed. -/
def classifyDestroyExit : ToolExit → JobState
  | .success => .Succeeded
  | .nothingToDestroy => .Succeeded
  | .otherFailure _ => .Failed

/-- Modelled from the spec: a normal destroy run of the external tool; with
zero recorded deployed resources the tool reports nothing to destroy. -/
def toolDestroyOutcome (recordedResources : Nat) : ToolExit :=
  if recordedResources = 0 then .nothingToDestroy else .success

/-- Modelled from the spec: the full destroy request lifecycle. Admission is
checked by the Concurrency Guard only (the recorded resource count is not
consulted); an admitted job starts the external tool (Pending to Running)
and, when the tool exits, transitions to the state classified from the exit
code. -/
def runDestroyRequest (jobs : List DeploymentJob) (pid newId recordedResources : Nat) :
    RequestResult × List DeploymentJob :=
  match requestJob jobs pid .Destroy newId with
  | (.deploymentInProgress, js) => (.deploymentInProgress, js)
  | (.admitted j, js) =>
    let js1 := applyTransition js j.id .Running
    let js2 := applyTransition js1 j.id (classifyDestroyExit (toolDestroyOutcome recordedResources))
    (.admitted j, js2)

/-! ## Log Streamer (spec section 4.5)

The backend Log Streamer is not in the source tree; it is modelled from the
spec text. -/

/-- How a subscriber stream ends. -/
inductive CloseKind where
  | endOfStream
  | errorClose
deriving DecidableEq, Repr

/-- One subscriber of a job log stream: the chunks delivered so far and the
close deliveries it has observed. -/
structure Subscriber where
  received : List String
  closes : List CloseKind
deriving DecidableEq, Repr

/-- The streamer state of one job: the append-only buffer, the attached
subscribers in attach order, and whether the job has reached a terminal
state. -/
structure StreamerState where
  buffer : List String
  subs : List Subscriber
  terminated : Bool
deriving DecidableEq, Repr

/-- The streamer state of a freshly started job. -/
def initStreamer : StreamerState :=
  { buffer := [], subs := [], terminated := false }

/-- Log streamer events: the producer emits a chunk, a subscriber attaches,
or the job reaches its terminal state. -/
inductive StreamerOp where
  | emit (chunk : String)
  | attach
  | finish

/-- Modelled from the spec: one streamer step. A produced chunk is appended
to the buffer and broadcast to every open subscriber (the producer stops at
the terminal transition). An attaching subscriber first receives the whole
buffered output; attaching after termination yields the replay and an
immediate normal close. The terminal transition closes every open subscriber
exactly once with a normal end-of-stream, never an error. -/
def streamerStep (st : StreamerState) : StreamerOp → StreamerState
  | .emit c =>
    if st.terminated then st
    else
      { st with
        buffer := st.buffer ++ [c],
        subs := st.subs.map (fun s =>
          if s.closes.isEmpty then { s with received := s.received ++ [c] } else s) }
  | .attach =>
    { st with
      subs := st.subs ++ [{ received := st.buffer,
                            closes := if st.terminated then [.endOfStream] else [] }] }
  | .finish =>
    if st.terminated then st
    else
      { st with
        terminated := true,
        subs := st.subs.map (fun s =>
          if s.closes.isEmpty then { s with closes := [.endOfStream] } else s) }

/-- Run a sequence of streamer events. -/
def runStreamer (st : StreamerState) (ops : List StreamerOp) : StreamerState :=
  ops.foldl streamerStep st

/-! ## Drag-build connection rules (src/unnamed/part_006, awsConnections) -/

/-- The allowed source-target service pairs of the drag-build canvas,
transcribed from RAW_PAIRS in the awsConnections module. -/
def RAW_PAIRS : List (String × String) := [
  ("aws_ec2", "aws_rds"),
  ("aws_ec2", "aws_dynamodb"),
  ("aws_ec2", "aws_aurora"),
  ("aws_ec2", "aws_elasticache"),
  ("aws_lambda", "aws_rds"),
  ("aws_lambda", "aws_dynamodb"),
  ("aws_lambda", "aws_aurora"),
  ("aws_lambda", "aws_elasticache"),
  ("aws_ecs", "aws_rds"),
  ("aws_ecs", "aws_dynamodb"),
  ("aws_ecs", "aws_aurora"),
  ("aws_ecs", "aws_elasticache"),
  ("aws_eks", "aws_rds"),
  ("aws_eks", "aws_dynamodb"),
  ("aws_ec2", "aws_s3"),
  ("aws_ec2", "aws_ebs"),
  ("aws_lambda", "aws_s3"),
  ("aws_ecs", "aws_s3"),
  ("aws_eks", "aws_s3"),
  ("aws_elb", "aws_ec2"),
  ("aws_elb", "aws_ecs"),
  ("aws_elb", "aws_eks"),
  ("aws_api_gateway", "aws_lambda"),
  ("aws_api_gateway", "aws_ecs"),
  ("aws_api_gateway", "aws_ec2"),
  ("aws_cloudfront", "aws_s3"),
  ("aws_cloudfront", "aws_elb"),
  ("aws_cloudfront", "aws_api_gateway"),
  ("aws_route53", "aws_cloudfront"),
  ("aws_route53", "aws_elb"),
  ("aws_route53", "aws_api_gateway"),
  ("aws_route53", "aws_ec2"),
  ("aws_vpc", "aws_ec2"),
  ("aws_vpc", "aws_ecs"),
  ("aws_vpc", "aws_eks"),
  ("aws_vpc", "aws_rds"),
  ("aws_vpc", "aws_elasticache"),
  ("aws_vpc", "aws_elb"),
  ("aws_vpc", "aws_nat_gateway"),
  ("aws_vpc", "aws_transit_gateway"),
  ("aws_nat_gateway", "aws_ec2"),
  ("aws_nat_gateway", "aws_ecs"),
  ("aws_transit_gateway", "aws_vpc"),
  ("aws_lambda", "aws_sqs"),
  ("aws_lambda", "aws_sns"),
  ("aws_lambda", "aws_eventbridge"),
  ("aws_lambda", "aws_kinesis"),
  ("aws_ec2", "aws_sqs"),
  ("aws_ec2", "aws_sns"),
  ("aws_ecs", "aws_sqs"),
  ("aws_ecs", "aws_sns"),
  ("aws_sqs", "aws_lambda"),
  ("aws_sns", "aws_lambda"),
  ("aws_sns", "aws_sqs"),
  ("aws_eventbridge", "aws_lambda"),
  ("aws_eventbridge", "aws_sqs"),
  ("aws_eventbridge", "aws_sns"),
  ("aws_kinesis", "aws_lambda"),
  ("aws_cognito", "aws_api_gateway"),
  ("aws_iam", "aws_ec2"),
  ("aws_iam", "aws_lambda"),
  ("aws_iam", "aws_ecs"),
  ("aws_secrets_manager", "aws_lambda"),
  ("aws_secrets_manager", "aws_ec2"),
  ("aws_secrets_manager", "aws_ecs"),
  ("aws_cloudwatch", "aws_ec2"),
  ("aws_cloudwatch", "aws_lambda"),
  ("aws_cloudwatch", "aws_ecs"),
  ("aws_cloudwatch", "aws_rds"),
  ("aws_cloudwatch", "aws_sns"),
  ("aws_ecr", "aws_ecs"),
  ("aws_ecr", "aws_eks")]

/-- The lookup set of the connection rules: each pair is keyed by the string
source, two colons, target, exactly as the TypeScript code builds it. -/
def allowedSet : List String :=
  RAW_PAIRS.map (fun p => p.1 ++ "::" ++ p.2)

/-- isConnectionAllowed from the awsConnections module: membership of the
source-target key in the allowed set. -/
def isConnectionAllowed (sourceType targetType : String) : Bool :=
  allowedSet.contains (sourceType ++ "::" ++ targetType)

/-- The labelled connections of getConnectionLabel in the awsConnections
module. -/
def connectionLabels : List (String × String) := [
  ("aws_elb::aws_ec2", "routes to"),
  ("aws_elb::aws_ecs", "routes to"),
  ("aws_api_gateway::aws_lambda", "triggers"),
  ("aws_cloudfront::aws_s3", "origin"),
  ("aws_cloudfront::aws_elb", "origin"),
  ("aws_route53::aws_cloudfront", "resolves to"),
  ("aws_route53::aws_elb", "resolves to"),
  ("aws_sqs::aws_lambda", "triggers"),
  ("aws_sns::aws_lambda", "triggers"),
  ("aws_sns::aws_sqs", "delivers to"),
  ("aws_eventbridge::aws_lambda", "triggers"),
  ("aws_vpc::aws_ec2", "contains"),
  ("aws_vpc::aws_rds", "contains"),
  ("aws_vpc::aws_ecs", "contains"),
  ("aws_cognito::aws_api_gateway", "authorizes")]

/-- getConnectionLabel from the awsConnections module: the labelled lookup
with the default label. -/
def getConnectionLabel (sourceType targetType : String) : String :=
  match connectionLabels.lookup (sourceType ++ "::" ++ targetType) with
  | some l => l
  | none => "connects to"

/-! ## Drag-build canvas edge creation (src/unnamed/part_002, onConnect) -/

/-- A canvas node as the onConnect handler sees it: the react-flow node id
and the serviceType stored in its data. -/
structure CanvasNode where
  id : String
  serviceType : String
deriving DecidableEq, Repr

/-- A canvas edge as built by the onConnect handler. -/
structure CanvasEdge where
  id : String
  source : String
  target : String
  label : String
deriving DecidableEq, Repr

/-- The onConnect handler of the drag-build canvas: resolve both endpoint
nodes; silently reject when either is missing or when the connection is not
allowed by isConnectionAllowed; otherwise append the new labelled edge (the
react-flow addEdge helper is modelled as an append). -/
def onConnect (nodes : List CanvasNode) (edges : List CanvasEdge)
    (source target : String) : List CanvasEdge :=
  match nodes.find? (fun n => n.id == source), nodes.find? (fun n => n.id == target) with
  | some sn, some tn =>
    if isConnectionAllowed sn.serviceType tn.serviceType then
      edges ++ [{ id := "e_" ++ source ++ "_" ++ target,
                  source := source, target := target,
                  label := getConnectionLabel sn.serviceType tn.serviceType }]
    else edges
  | _, _ => edges

/-! ## Architecture tab chat dispatch
(src/frontend/src/pages/projects/ArchitectureTab.tsx and
src/frontend/src/api/architecture.ts) -/

/-- A backend request issued by the architecture API client: the request
path and the single body field it posts. -/
structure ApiRequest where
  path : String
  bodyField : String
  bodyValue : String
deriving DecidableEq, Repr

/-- architectureApi.generate: POST to the generate endpoint with the prompt
as natural_language_input. -/
def architectureApi.generate (projectId : Nat) (naturalLanguageInput : String) : ApiRequest :=
  { path := "/projects/" ++ toString projectId ++ "/generate",
    bodyField := "natural_language_input",
    bodyValue := naturalLanguageInput }

/-- architectureApi.edit: POST to the edit endpoint with the prompt as
modification_prompt. -/
def architectureApi.edit (projectId : Nat) (modificationPrompt : String) : ApiRequest :=
  { path := "/projects/" ++ toString projectId ++ "/edit",
    bodyField := "modification_prompt",
    bodyValue := modificationPrompt }

/-- The loaded-architecture state of the tab, as the handler branches on it:
either no architecture is loaded or one is. -/
inductive LoadedArchitecture where
  | none
  | loaded (arch : Architecture)

/-- handleGenerate from ArchitectureTab: the current prompt is the retry
prompt when a non-empty one is supplied (a JavaScript or-default), else the
prompt field; a current prompt that trims to the empty string submits
nothing (the JavaScript trimmed-falsiness guard is rendered as the
equivalent all-whitespace test, since the two coincide exactly); otherwise
exactly one pipeline entry point is invoked, edit when an architecture is
loaded and generate when none is. -/
def handleGenerate (projectId : Nat) (architecture : LoadedArchitecture)
    (promptField : String) (retryPrompt : Option String) : Option ApiRequest :=
  let currentPrompt :=
    match retryPrompt with
    | some r => if r = "" then promptField else r
    | none => promptField
  if currentPrompt.data.all Char.isWhitespace then none
  else
    match architecture with
    | .loaded _ => some (architectureApi.edit projectId currentPrompt)
    | .none => some (architectureApi.generate projectId currentPrompt)

/-! ## Validator claim theorems -/

lemma validate_errors_eq (a : Architecture) :
    (validate a).errors = checkUnsupported a ++ checkDuplicateNodes a ++ checkDanglingEdges a
      ++ checkSelfLoops a ++ checkDuplicateEdges a ++ checkCycles a := rfl

lemma validate_valid_eq (a : Architecture) :
    (validate a).valid = (validate a).errors.isEmpty := rfl

lemma validate_valid_false_of_mem {a : Architecture} {e : ValidationError}
    (h : e ∈ (validate a).errors) : (validate a).valid = false := by
  rw [validate_valid_eq]
  exact List.isEmpty_eq_false.mpr (List.ne_nil_of_mem h)

/-- The spec scenario for self loops: graph with node A of type lambda and
the edge A to A. -/
def selfLoopScenario : Architecture :=
  { projectId := 1, version := 1,
    nodes := [{ id := "A", serviceType := "lambda", label := "A", config := [] }],
    edges := [{ source := "A", target := "A", label := "" }],
    createdAt := 0 }

/-- C5: for every Architecture containing a self-loop edge (an edge whose
source equals its target), validate returns valid false together with a
SelfLoop error naming the offending node. -/
theorem validate_flags_self_loops (a : Architecture) (e : Edge)
    (he : e ∈ a.edges) (hself : e.source = e.target) :
    (validate a).valid = false ∧
      ValidationError.SelfLoop e.source ∈ (validate a).errors := by
  have hmem : ValidationError.SelfLoop e.source ∈ checkSelfLoops a := by
    unfold checkSelfLoops
    refine List.mem_map.mpr ⟨e, List.mem_filter.mpr ⟨he, ?_⟩, rfl⟩
    simp [hself]
  have herr : ValidationError.SelfLoop e.source ∈ (validate a).errors := by
    rw [validate_errors_eq]
    simp only [List.mem_append]
    tauto
  exact ⟨validate_valid_false_of_mem herr, herr⟩

/-- Witness for C5: the spec scenario graph with node A and edge A to A
yields valid false and SelfLoop on node A. -/
theorem validate_flags_self_loops_witness :
    (validate selfLoopScenario).valid = false ∧
      ValidationError.SelfLoop "A" ∈ (validate selfLoopScenario).errors :=
  validate_flags_self_loops selfLoopScenario ⟨"A", "A", ""⟩ (by decide) rfl

/-- The spec scenario for cycles: nodes A of type lambda and B of type
dynamodb with edges A to B and B to A. -/
def cycleScenario : Architecture :=
  { projectId := 1, version := 1,
    nodes := [{ id := "A", serviceType := "lambda", label := "A", config := [] },
              { id := "B", serviceType := "dynamodb", label := "B", config := [] }],
    edges := [{ source := "A", target := "B", label := "" },
              { source := "B", target := "A", label := "" }],
    createdAt := 0 }

lemma checkCycles_cycleScenario :
    checkCycles cycleScenario = [ValidationError.CircularDependency ["A", "B", "A"]] := by
  simp [checkCycles, detectCycle, dfsAll, dfsLoop, nodeSucc, grayOf, archNodeIds, cycleScenario]

/-- C1: for every Architecture whose directed edge set contains a cycle,
validate returns a CircularDependency error (and the result is not valid);
in particular, on the spec scenario graph with nodes A and B and edges A to
B and B to A, validate reports the full cycle node sequence A, B, A. -/
theorem validate_reports_circular_dependency :
    (∀ (a : Architecture) (v : String), Relation.TransGen (EdgeStep a.edges) v v →
      (validate a).valid = false ∧
        ∃ c, ValidationError.CircularDependency c ∈ (validate a).errors) ∧
    (validate cycleScenario).valid = false ∧
    ValidationError.CircularDependency ["A", "B", "A"] ∈ (validate cycleScenario).errors := by
  constructor
  · intro a v hcyc
    obtain ⟨c, hc⟩ := detectCycle_complete a.edges (archNodeIds a) v hcyc
    have hmem : ValidationError.CircularDependency c ∈ checkCycles a := by
      unfold checkCycles
      rw [hc]
      simp
    have herr : ValidationError.CircularDependency c ∈ (validate a).errors := by
      rw [validate_errors_eq]
      simp only [List.mem_append]
      tauto
    exact ⟨validate_valid_false_of_mem herr, c, herr⟩
  · have herr : ValidationError.CircularDependency ["A", "B", "A"] ∈ (validate cycleScenario).errors := by
      rw [validate_errors_eq, checkCycles_cycleScenario]
      simp
    exact ⟨validate_valid_false_of_mem herr, herr⟩

/-- Witness for C1: the two-node cycle scenario discharges the cycle
hypothesis of the universal part. -/
theorem validate_reports_circular_dependency_witness :
    (validate cycleScenario).valid = false ∧
      ∃ c, ValidationError.CircularDependency c ∈ (validate cycleScenario).errors :=
  validate_reports_circular_dependency.1 cycleScenario "A"
    (Relation.TransGen.head
      ⟨⟨"A", "B", ""⟩, by decide, rfl, rfl⟩
      (Relation.TransGen.single ⟨⟨"B", "A", ""⟩, by decide, rfl, rfl⟩))

/-! ## Graph Store claim theorems -/

/-- C2: two edit calls on the same project that both start from the same
latest version N are serialized by the atomic compare-and-swap: the first
to commit succeeds and persists version N + 1, the second receives
VersionConflict referencing the new latest version N + 1, and the losing
write leaves the history untouched (never silently merged or overwritten). -/
theorem edit_cas_exactly_one_wins (history : List Architecture) (pid N : Nat)
    (p1 p2 : ArchPayload) (t1 t2 : Nat) (cur : Architecture)
    (hlast : history.getLast? = some cur) (hver : cur.version = N) :
    ∃ a1, casEdit history pid N p1 t1 = (.ok a1, history ++ [a1]) ∧
      a1.version = N + 1 ∧
      casEdit (history ++ [a1]) pid N p2 t2 = (.versionConflict (N + 1), history ++ [a1]) := by
  refine ⟨{ projectId := pid, version := cur.version + 1,
            nodes := p1.nodes, edges := p1.edges, createdAt := t1 }, ?_, ?_, ?_⟩
  · simp [casEdit, hlast, hver]
  · simp [hver]
  · simp only [casEdit, List.getLast?_concat, hver]
    rw [if_neg (by omega)]

/-- A one-element history at version 3, used by witnesses. -/
def historyAtV3 : List Architecture :=
  [{ projectId := 7, version := 3, nodes := [], edges := [], createdAt := 0 }]

/-- Witness for C2: the spec scenario of two parallel edits against version 3
of one project; the winner persists version 4 and the loser receives
VersionConflict referencing version 4. -/
theorem edit_cas_exactly_one_wins_witness :
    ∃ a1, casEdit historyAtV3 7 3 ⟨[], []⟩ 1 = (.ok a1, historyAtV3 ++ [a1]) ∧
      a1.version = 3 + 1 ∧
      casEdit (historyAtV3 ++ [a1]) 7 3 ⟨[], []⟩ 2 =
        (.versionConflict (3 + 1), historyAtV3 ++ [a1]) :=
  edit_cas_exactly_one_wins historyAtV3 7 3 ⟨[], []⟩ ⟨[], []⟩ 1 2
    { projectId := 7, version := 3, nodes := [], edges := [], createdAt := 0 } (by decide) rfl

lemma versionChain_concat (history : List Architecture) (a : Architecture)
    (hchain : versionChain history = true)
    (hstep : ∀ cur, history.getLast? = some cur → a.version = cur.version + 1) :
    versionChain (history ++ [a]) = true := by
  induction history using versionChain.induct with
  | case1 =>
    rfl
  | case2 x =>
    have hx := hstep x (by simp)
    simp [versionChain, hx]
  | case3 x y rest ih =>
    unfold versionChain at hchain
    simp only [Bool.and_eq_true, beq_iff_eq] at hchain
    obtain ⟨h1, h2⟩ := hchain
    have ih2 := ih h2 (by
      intro cur hcur
      refine hstep cur ?_
      rw [List.getLast?_cons_cons]
      exact hcur)
    have hform : versionChain (x :: y :: (rest ++ [a]))
        = ((y.version == x.version + 1) && versionChain (y :: (rest ++ [a]))) := rfl
    simp only [List.cons_append] at ih2 ⊢
    rw [hform, ih2]
    simp [h1]

lemma casEdit_step_spec (history : List Architecture) (pid base : Nat)
    (p : ArchPayload) (now : Nat) (hchain : versionChain history = true) :
    versionChain (casEdit history pid base p now).2 = true ∧
      ∃ t, (casEdit history pid base p now).2 = history ++ t := by
  rcases hlast : history.getLast? with _ | cur
  · simp only [casEdit, hlast]
    exact ⟨hchain, [], by simp⟩
  · by_cases hv : cur.version = base
    · simp only [casEdit, hlast, if_pos hv]
      refine ⟨?_, ⟨_, rfl⟩⟩
      refine versionChain_concat history _ hchain ?_
      intro c hc
      rw [hlast] at hc
      cases hc
      rfl
    · simp only [casEdit, hlast, if_neg hv]
      exact ⟨hchain, [], by simp⟩

/-- C3: over any sequence of edit calls on one project the version history
is append-only and the version numbers form a strict chain with step one
(strictly increasing, no gaps); moreover every successful edit persists
exactly version + 1 of the previous latest and appends it. -/
theorem edit_versions_strictly_increase :
    (∀ (history : List Architecture) (pid : Nat) (ops : List (Nat × ArchPayload × Nat)),
      versionChain history = true →
      versionChain (runEdits history pid ops) = true ∧
        ∃ t, runEdits history pid ops = history ++ t) ∧
    (∀ (history : List Architecture) (pid base : Nat) (p : ArchPayload) (now : Nat)
        (a : Architecture) (h2 : List Architecture),
      casEdit history pid base p now = (.ok a, h2) →
      ∃ cur, history.getLast? = some cur ∧ a.version = cur.version + 1 ∧
        h2 = history ++ [a]) := by
  constructor
  · intro history pid ops
    induction ops generalizing history with
    | nil =>
      intro hchain
      exact ⟨hchain, [], by simp [runEdits]⟩
    | cons op rest ih =>
      intro hchain
      obtain ⟨base, p, now⟩ := op
      obtain ⟨hc2, ⟨t, ht⟩⟩ := casEdit_step_spec history pid base p now hchain
      obtain ⟨g1, ⟨t2, ht2⟩⟩ := ih _ hc2
      refine ⟨by simpa [runEdits] using g1, ⟨t ++ t2, ?_⟩⟩
      show runEdits (casEdit history pid base p now).2 pid rest = history ++ (t ++ t2)
      rw [ht2, ht, List.append_assoc]
  · intro history pid base p now a h2 hrun
    rcases hlast : history.getLast? with _ | cur
    · simp only [casEdit, hlast] at hrun
      simp at hrun
    · simp only [casEdit, hlast] at hrun
      by_cases hv : cur.version = base
      · rw [if_pos hv] at hrun
        simp only [Prod.mk.injEq, EditOutcome.ok.injEq] at hrun
        obtain ⟨ha, hh⟩ := hrun
        exact ⟨cur, rfl, by rw [← ha], by rw [← hh, ← ha]⟩
      · rw [if_neg hv] at hrun
        simp at hrun

/-- Witness for C3: a concrete two-edit run starting from the version 3
history, and the concrete successful compare-and-swap step. -/
theorem edit_versions_strictly_increase_witness :
    (versionChain (runEdits historyAtV3 7 [(3, ⟨[], []⟩, 1), (4, ⟨[], []⟩, 2)]) = true ∧
      ∃ t, runEdits historyAtV3 7 [(3, ⟨[], []⟩, 1), (4, ⟨[], []⟩, 2)] = historyAtV3 ++ t) ∧
    (∃ cur, historyAtV3.getLast? = some cur ∧
      ({ projectId := 7, version := 4, nodes := [], edges := [], createdAt := 1 } :
          Architecture).version = cur.version + 1 ∧
      historyAtV3 ++ [{ projectId := 7, version := 4, nodes := [], edges := [], createdAt := 1 }] =
        historyAtV3 ++ [{ projectId := 7, version := 4, nodes := [], edges := [], createdAt := 1 }]) :=
  ⟨edit_versions_strictly_increase.1 historyAtV3 7 [(3, ⟨[], []⟩, 1), (4, ⟨[], []⟩, 2)] (by decide),
   edit_versions_strictly_increase.2 historyAtV3 7 3 ⟨[], []⟩ 1
     { projectId := 7, version := 4, nodes := [], edges := [], createdAt := 1 }
     (historyAtV3 ++ [{ projectId := 7, version := 4, nodes := [], edges := [], createdAt := 1 }])
     (by decide)⟩

/-! ## Deployment Engine claim theorems -/

lemma isActive_of_not_terminal {s : JobState} (h : isTerminal s = true) :
    isActive s = false := by
  cases s <;> simp [isTerminal, isActive] at h ⊢

lemma stepJobState_of_terminal {s : JobState} (t : JobState) (h : isTerminal s = true) :
    stepJobState s t = none := by
  cases s <;> simp [isTerminal] at h <;> cases t <;> rfl

lemma activeJobFor_false_of_all_terminal {jobs : List DeploymentJob} {pid : Nat}
    (h : ∀ j ∈ jobs, j.projectId = pid → isTerminal j.state = true) :
    activeJobFor jobs pid = false := by
  unfold activeJobFor
  rw [List.any_eq_false]
  intro j hj
  by_cases hp : j.projectId = pid
  · simp [hp, isActive_of_not_terminal (h j hj hp)]
  · simp [hp]

/-- C4: a deployment request for a project with an active (Pending or
Running) job is rejected synchronously with DeploymentInProgress and no job
is created; with no active job, a new DeploymentJob is created in Pending.
Both requestApply and requestDestroy behave this way. -/
theorem request_admission (jobs : List DeploymentJob) (pid newId : Nat) :
    (activeJobFor jobs pid = true →
      requestApply jobs pid newId = (.deploymentInProgress, jobs) ∧
      requestDestroy jobs pid newId = (.deploymentInProgress, jobs)) ∧
    (activeJobFor jobs pid = false →
      requestApply jobs pid newId =
        (.admitted ⟨newId, pid, .Apply, .Pending⟩, jobs ++ [⟨newId, pid, .Apply, .Pending⟩]) ∧
      requestDestroy jobs pid newId =
        (.admitted ⟨newId, pid, .Destroy, .Pending⟩, jobs ++ [⟨newId, pid, .Destroy, .Pending⟩])) := by
  constructor
  · intro hactive
    constructor <;> simp [requestApply, requestDestroy, requestJob, hactive]
  · intro hfree
    constructor <;> simp [requestApply, requestDestroy, requestJob, hfree]

/-- Witness for C4: a store with one Running job for project 7 rejects both
request kinds, and the empty store admits a Pending job. -/
theorem request_admission_witness :
    (requestApply [⟨1, 7, .Apply, .Running⟩] 7 2 =
        (.deploymentInProgress, [⟨1, 7, .Apply, .Running⟩]) ∧
      requestDestroy [⟨1, 7, .Apply, .Running⟩] 7 2 =
        (.deploymentInProgress, [⟨1, 7, .Apply, .Running⟩])) ∧
    (requestApply [] 7 2 = (.admitted ⟨2, 7, .Apply, .Pending⟩, [⟨2, 7, .Apply, .Pending⟩]) ∧
      requestDestroy [] 7 2 = (.admitted ⟨2, 7, .Destroy, .Pending⟩, [⟨2, 7, .Destroy, .Pending⟩])) := by
  refine ⟨(request_admission [⟨1, 7, .Apply, .Running⟩] 7 2).1 (by decide), ?_⟩
  have h := (request_admission [] 7 2).2 (by decide)
  simpa using h

/-- C6: terminal job states are sticky: a job record that has reached
Succeeded or Failed survives any further sequence of engine events
unchanged (no transition is ever applied to it); and once every job of a
project is terminal the Concurrency Guard reports the project free, so a
new apply or destroy request is admitted as a new Pending job. -/
theorem terminal_states_sticky :
    (∀ (jobs : List DeploymentJob) (ops : List EngineOp) (j : DeploymentJob),
      j ∈ jobs → isTerminal j.state = true → j ∈ runEngine jobs ops) ∧
    (∀ (jobs : List DeploymentJob) (pid : Nat),
      (∀ j ∈ jobs, j.projectId = pid → isTerminal j.state = true) →
      activeJobFor jobs pid = false) ∧
    (∀ (jobs : List DeploymentJob) (pid : Nat) (act : JobAction) (newId : Nat),
      (∀ j ∈ jobs, j.projectId = pid → isTerminal j.state = true) →
      requestJob jobs pid act newId =
        (.admitted ⟨newId, pid, act, .Pending⟩, jobs ++ [⟨newId, pid, act, .Pending⟩])) := by
  refine ⟨?_, ?_, ?_⟩
  · intro jobs ops
    induction ops generalizing jobs with
    | nil =>
      intro j hj _
      simpa [runEngine] using hj
    | cons op rest ih =>
      intro j hj hterm
      cases op with
      | request pid act newId =>
        show j ∈ runEngine (requestJob jobs pid act newId).2 rest
        refine ih _ j ?_ hterm
        unfold requestJob
        split
        · exact hj
        · exact List.mem_append.mpr (Or.inl hj)
      | transition jobId target =>
        show j ∈ runEngine (applyTransition jobs jobId target) rest
        refine ih _ j ?_ hterm
        unfold applyTransition
        refine List.mem_map.mpr ⟨j, hj, ?_⟩
        by_cases hid : j.id = jobId
        · simp [hid, stepJobState_of_terminal target hterm]
        · simp [hid]
  · intro jobs pid h
    exact activeJobFor_false_of_all_terminal h
  · intro jobs pid act newId h
    simp [requestJob, activeJobFor_false_of_all_terminal h]

/-- Witness for C6: a Succeeded job survives a request and a transition
aimed at its id, the guard reports its project free, and a new request is
admitted. -/
theorem terminal_states_sticky_witness :
    (⟨1, 7, JobAction.Apply, JobState.Succeeded⟩ : DeploymentJob) ∈
      runEngine [⟨1, 7, .Apply, .Succeeded⟩]
        [.transition 1 .Running, .request 7 .Destroy 2] ∧
    activeJobFor [⟨1, 7, .Apply, .Succeeded⟩] 7 = false ∧
    requestJob [⟨1, 7, .Apply, .Succeeded⟩] 7 .Destroy 2 =
      (.admitted ⟨2, 7, .Destroy, .Pending⟩,
        [⟨1, 7, .Apply, .Succeeded⟩, ⟨2, 7, .Destroy, .Pending⟩]) := by
  refine ⟨terminal_states_sticky.1 [⟨1, 7, .Apply, .Succeeded⟩]
      [.transition 1 .Running, .request 7 .Destroy 2] _ (by decide) (by decide),
    terminal_states_sticky.2.1 [⟨1, 7, .Apply, .Succeeded⟩] 7 (by decide), ?_⟩
  have h := terminal_states_sticky.2.2 [⟨1, 7, .Apply, .Succeeded⟩] 7 .Destroy 2 (by decide)
  simpa using h

/-- C7: requestDestroy on a project with zero recorded deployed resources is
still admitted by the guard (the resource count is not consulted), still
runs the external tool, and the job completes in the Succeeded terminal
state because the engine maps the nothing-to-destroy exit to Succeeded, not
Failed. -/
theorem destroy_idempotent_on_empty (jobs : List DeploymentJob) (pid newId : Nat)
    (hfree : activeJobFor jobs pid = false) :
    classifyDestroyExit (toolDestroyOutcome 0) = .Succeeded ∧
    ∃ finalJobs, runDestroyRequest jobs pid newId 0 =
      (.admitted ⟨newId, pid, .Destroy, .Pending⟩, finalJobs) ∧
      (⟨newId, pid, .Destroy, .Succeeded⟩ : DeploymentJob) ∈ finalJobs := by
  refine ⟨rfl, ?_⟩
  unfold runDestroyRequest
  rw [show requestJob jobs pid .Destroy newId =
      (.admitted ⟨newId, pid, .Destroy, .Pending⟩, jobs ++ [⟨newId, pid, .Destroy, .Pending⟩]) by
    simp [requestJob, hfree]]
  refine ⟨_, rfl, ?_⟩
  unfold applyTransition
  rw [List.map_append, List.map_append]
  refine List.mem_append.mpr (Or.inr ?_)
  simp [stepJobState, classifyDestroyExit, toolDestroyOutcome]

/-- Witness for C7: the empty job store with zero recorded resources runs a
destroy to Succeeded. -/
theorem destroy_idempotent_on_empty_witness :
    classifyDestroyExit (toolDestroyOutcome 0) = .Succeeded ∧
    ∃ finalJobs, runDestroyRequest [] 3 9 0 =
      (.admitted ⟨9, 3, .Destroy, .Pending⟩, finalJobs) ∧
      (⟨9, 3, .Destroy, .Succeeded⟩ : DeploymentJob) ∈ finalJobs :=
  destroy_idempotent_on_empty [] 3 9 (by decide)

/-! ## Log Streamer claim theorems -/

/-- The streamer invariant: every attached subscriber has received exactly
the buffered chunks in order, and is closed (exactly once, with a normal
end-of-stream) precisely when the job has reached its terminal state. -/
def streamerInv (st : StreamerState) : Prop :=
  ∀ s ∈ st.subs, s.received = st.buffer ∧
    s.closes = (if st.terminated then [CloseKind.endOfStream] else [])

lemma streamerInv_step {st : StreamerState} (op : StreamerOp) (h : streamerInv st) :
    streamerInv (streamerStep st op) := by
  unfold streamerInv at h ⊢
  cases op with
  | emit c =>
    cases hterm : st.terminated with
    | true => simpa [streamerStep, hterm] using h
    | false =>
      intro s hs
      simp only [streamerStep, hterm, Bool.false_eq_true, if_false] at hs ⊢
      obtain ⟨s0, hs0, rfl⟩ := List.mem_map.mp hs
      obtain ⟨h1, h2⟩ := h s0 hs0
      rw [hterm] at h2
      simp only [Bool.false_eq_true, if_false] at h2
      simp [h2, List.isEmpty_nil, h1]
  | attach =>
    intro s hs
    simp only [streamerStep] at hs ⊢
    rcases List.mem_append.mp hs with hmem | hmem
    · exact h s hmem
    · simp only [List.mem_singleton] at hmem
      subst hmem
      exact ⟨rfl, rfl⟩
  | finish =>
    cases hterm : st.terminated with
    | true => simpa [streamerStep, hterm] using h
    | false =>
      intro s hs
      simp only [streamerStep, hterm, Bool.false_eq_true, if_false] at hs ⊢
      obtain ⟨s0, hs0, rfl⟩ := List.mem_map.mp hs
      obtain ⟨h1, h2⟩ := h s0 hs0
      rw [hterm] at h2
      simp only [Bool.false_eq_true, if_false] at h2
      simp [h2, List.isEmpty_nil, h1]

lemma streamerInv_run (ops : List StreamerOp) :
    ∀ st : StreamerState, streamerInv st → streamerInv (runStreamer st ops) := by
  induction ops with
  | nil => intro st h; exact h
  | cons op rest ih =>
    intro st h
    exact ih (streamerStep st op) (streamerInv_step op h)

lemma streamer_buffer_extends (ops : List StreamerOp) :
    ∀ st : StreamerState, ∃ t, (runStreamer st ops).buffer = st.buffer ++ t := by
  induction ops with
  | nil => intro st; exact ⟨[], by simp [runStreamer]⟩
  | cons op rest ih =>
    intro st
    obtain ⟨t, ht⟩ := ih (streamerStep st op)
    have hstep : ∃ u, (streamerStep st op).buffer = st.buffer ++ u := by
      cases op with
      | emit c =>
        cases hterm : st.terminated
        · exact ⟨[c], by simp [streamerStep, hterm]⟩
        · exact ⟨[], by simp [streamerStep, hterm]⟩
      | attach => exact ⟨[], by simp [streamerStep]⟩
      | finish =>
        cases hterm : st.terminated
        · exact ⟨[], by simp [streamerStep, hterm]⟩
        · exact ⟨[], by simp [streamerStep, hterm]⟩
    obtain ⟨u, hu⟩ := hstep
    refine ⟨u ++ t, ?_⟩
    have hrun : runStreamer st (op :: rest) = runStreamer (streamerStep st op) rest := rfl
    rw [hrun, ht, hu, List.append_assoc]

lemma streamer_subs_stable (ops : List StreamerOp) :
    ∀ (st : StreamerState) (i : Nat) (s : Subscriber), st.subs.get? i = some s →
      ∃ s2, (runStreamer st ops).subs.get? i = some s2 := by
  induction ops with
  | nil => intro st i s hs; exact ⟨s, hs⟩
  | cons op rest ih =>
    intro st i s hs
    have hstep : ∃ s2, (streamerStep st op).subs.get? i = some s2 := by
      cases op with
      | emit c =>
        cases hterm : st.terminated
        · refine ⟨if s.closes.isEmpty then { s with received := s.received ++ [c] } else s, ?_⟩
          simp [streamerStep, hterm, List.get?_map, hs]
          exact ⟨s, by simpa using hs, rfl⟩
        · exact ⟨s, by simpa [streamerStep, hterm] using hs⟩
      | attach =>
        have hlen : i < st.subs.length := by
          by_contra hlen
          rw [List.get?_eq_none.mpr (Nat.le_of_not_lt hlen)] at hs
          exact Option.noConfusion hs
        exact ⟨s, by simp only [streamerStep, List.get?_append hlen, hs]⟩
      | finish =>
        cases hterm : st.terminated
        · refine ⟨if s.closes.isEmpty then { s with closes := [CloseKind.endOfStream] } else s, ?_⟩
          simp [streamerStep, hterm, List.get?_map, hs]
          exact ⟨s, by simpa using hs, rfl⟩
        · exact ⟨s, by simpa [streamerStep, hterm] using hs⟩
    obtain ⟨s2, hs2⟩ := hstep
    exact ih _ i s2 hs2

/-- C8: a subscriber that attaches at any point of a job log trace receives
every chunk already buffered at attach time followed by the subsequent live
chunks in order (its delivered sequence equals the full ordered buffer and
extends the attach-time buffer), and its stream is closed exactly once,
with a normal end-of-stream and never an error, precisely when the job has
performed its terminal transition. -/
theorem log_stream_replay_and_close (pre post : List StreamerOp) :
    ∃ sub, (runStreamer initStreamer (pre ++ .attach :: post)).subs.get?
        (runStreamer initStreamer pre).subs.length = some sub ∧
      (∃ live, sub.received = (runStreamer initStreamer pre).buffer ++ live) ∧
      sub.received = (runStreamer initStreamer (pre ++ .attach :: post)).buffer ∧
      sub.closes = (if (runStreamer initStreamer (pre ++ .attach :: post)).terminated
        then [CloseKind.endOfStream] else []) := by
  have hsplit : runStreamer initStreamer (pre ++ StreamerOp.attach :: post)
      = runStreamer (streamerStep (runStreamer initStreamer pre) .attach) post := by
    unfold runStreamer
    rw [List.foldl_append]
    rfl
  have hidx : (streamerStep (runStreamer initStreamer pre) .attach).subs.get?
      (runStreamer initStreamer pre).subs.length = some
      { received := (runStreamer initStreamer pre).buffer,
        closes := if (runStreamer initStreamer pre).terminated
          then [CloseKind.endOfStream] else [] } := by
    simp only [streamerStep]
    exact List.get?_concat_length _ _
  obtain ⟨sub, hsub⟩ := streamer_subs_stable post _ _ _ hidx
  have hinvB : streamerInv (streamerStep (runStreamer initStreamer pre) .attach) := by
    refine streamerInv_step _ ?_
    refine streamerInv_run pre initStreamer ?_
    intro s hs
    exact absurd hs (List.not_mem_nil s)
  have hinvF := streamerInv_run post _ hinvB
  have hmem : sub ∈ (runStreamer (streamerStep (runStreamer initStreamer pre) .attach) post).subs :=
    List.get?_mem hsub
  obtain ⟨hrecv, hcloses⟩ := hinvF sub hmem
  have hbufB : (streamerStep (runStreamer initStreamer pre) .attach).buffer
      = (runStreamer initStreamer pre).buffer := by
    simp [streamerStep]
  obtain ⟨t, hext⟩ := streamer_buffer_extends post
    (streamerStep (runStreamer initStreamer pre) .attach)
  refine ⟨sub, by rw [hsplit]; exact hsub, ⟨t, ?_⟩, by rw [hsplit]; exact hrecv,
    by rw [hsplit]; exact hcloses⟩
  rw [hrecv, hext, hbufB]

/-! ## Drag-build connection rule claim theorems -/

lemma colon_free_append_inj : ∀ (a c b d : List Char),
    ':' ∉ a → ':' ∉ c → a ++ ':' :: ':' :: b = c ++ ':' :: ':' :: d → a = c ∧ b = d := by
  intro a
  induction a with
  | nil =>
    intro c b d hb hc h
    cases c with
    | nil => simpa using h
    | cons x xs =>
      injection h with h1 h2
      subst h1
      exact absurd (List.mem_cons_self _ _) hc
  | cons x xs ih =>
    intro c b d hb hc h
    cases c with
    | nil =>
      injection h with h1 h2
      subst h1
      exact absurd (List.mem_cons_self _ _) hb
    | cons y ys =>
      injection h with hxy hrest
      have hxb : ':' ∉ xs := fun hm => hb (List.mem_cons_of_mem _ hm)
      have hyc : ':' ∉ ys := fun hm => hc (List.mem_cons_of_mem _ hm)
      obtain ⟨h1, h2⟩ := ih ys b d hxb hyc hrest
      exact ⟨by rw [hxy, h1], h2⟩

lemma key_colon_free (t p1 p2 : String)
    (hp1 : ':' ∉ p1.data) (hp2 : ':' ∉ p2.data)
    (h : t ++ "::" ++ t = p1 ++ "::" ++ p2) : ':' ∉ t.data := by
  have hd : t.data ++ ':' :: ':' :: t.data = p1.data ++ ':' :: ':' :: p2.data := by
    have h2 := congrArg String.data h
    simpa [String.data_append] using h2
  have hcount := congrArg (List.count ':') hd
  simp only [List.count_append, List.count_cons_self] at hcount
  rw [← List.count_eq_zero] at hp1 hp2
  intro hmem
  have hpos := List.count_pos_iff.mpr hmem
  omega

set_option maxHeartbeats 1000000 in
lemma RAW_PAIRS_facts :
    ∀ p ∈ RAW_PAIRS, p.1 ≠ p.2 ∧ (':' ∈ p.1.data → False) ∧ (':' ∈ p.2.data → False) := by
  decide

lemma isConnectionAllowed_self_false (t : String) : isConnectionAllowed t t = false := by
  by_contra hcon
  rw [Bool.not_eq_false] at hcon
  have hmem : (t ++ "::" ++ t) ∈ RAW_PAIRS.map (fun p => p.1 ++ "::" ++ p.2) := by
    have h2 : (allowedSet.contains (t ++ "::" ++ t)) = true := hcon
    unfold allowedSet at h2
    simpa using h2
  obtain ⟨p, hp, hkey⟩ := List.mem_map.mp hmem
  obtain ⟨hne, hc1, hc2⟩ := RAW_PAIRS_facts p hp
  have hfree : ':' ∉ t.data := key_colon_free t p.1 p.2 hc1 hc2 hkey.symm
  have hd : p.1.data ++ ':' :: ':' :: p.2.data = t.data ++ ':' :: ':' :: t.data := by
    have h2 := congrArg String.data hkey
    simpa [String.data_append] using h2
  obtain ⟨h1, h2⟩ := colon_free_append_inj p.1.data t.data p.2.data t.data hc1 hfree hd
  exact hne (congrArg Prod.fst (Prod.ext rfl rfl) ▸ String.ext (h1.trans h2.symm))

/-- C9: no connection rule pair relates a service type to itself;
isConnectionAllowed of any type with itself is false (for arbitrary
strings, not only catalog types); the canvas onConnect handler adds an edge
only when isConnectionAllowed approves the endpoint types, and connecting a
node to itself leaves the edge list unchanged, so the visual editor never
creates a self-loop edge. -/
theorem drag_build_never_self_loop :
    (∀ p ∈ RAW_PAIRS, p.1 ≠ p.2) ∧
    (∀ t : String, isConnectionAllowed t t = false) ∧
    (∀ (nodes : List CanvasNode) (edges : List CanvasEdge) (source target : String),
      onConnect nodes edges source target = edges ∨
      ∃ sn tn, nodes.find? (fun n => n.id == source) = some sn ∧
        nodes.find? (fun n => n.id == target) = some tn ∧
        isConnectionAllowed sn.serviceType tn.serviceType = true ∧
        onConnect nodes edges source target = edges ++
          [{ id := "e_" ++ source ++ "_" ++ target, source := source, target := target,
             label := getConnectionLabel sn.serviceType tn.serviceType }]) ∧
    (∀ (nodes : List CanvasNode) (edges : List CanvasEdge) (t : String),
      onConnect nodes edges t t = edges) := by
  refine ⟨fun p hp => (RAW_PAIRS_facts p hp).1, isConnectionAllowed_self_false, ?_, ?_⟩
  · intro nodes edges source target
    rcases hs : nodes.find? (fun n => n.id == source) with _ | sn
    · left
      simp only [onConnect, hs]
    · rcases ht : nodes.find? (fun n => n.id == target) with _ | tn
      · left
        simp only [onConnect, hs, ht]
      · by_cases hallow : isConnectionAllowed sn.serviceType tn.serviceType = true
        · right
          refine ⟨sn, tn, hs, ht, hallow, ?_⟩
          simp only [onConnect, hs, ht, if_pos hallow]
        · left
          simp only [onConnect, hs, ht, if_neg hallow]
  · intro nodes edges t
    rcases hs : nodes.find? (fun n => n.id == t) with _ | sn
    · simp only [onConnect, hs]
    · simp only [onConnect, hs, isConnectionAllowed_self_false sn.serviceType,
        Bool.false_eq_true, if_false]

/-- Witness for C9: a concrete rule pair, a concrete self-pair rejection,
and a concrete self-connection attempt that leaves the canvas unchanged. -/
theorem drag_build_never_self_loop_witness :
    (("aws_ec2", "aws_rds") : String × String).1 ≠ ("aws_ec2", "aws_rds").2 ∧
    isConnectionAllowed "aws_lambda" "aws_lambda" = false ∧
    onConnect [⟨"n1", "aws_vpc"⟩] [] "n1" "n1" = [] :=
  ⟨drag_build_never_self_loop.1 ("aws_ec2", "aws_rds") (by decide),
   drag_build_never_self_loop.2.1 "aws_lambda",
   drag_build_never_self_loop.2.2.2 [⟨"n1", "aws_vpc"⟩] [] "n1"⟩

/-! ## Architecture tab dispatch claim theorem -/

/-- C10: for every prompt submitted in the Architecture tab chat form (the
current prompt, after the retry-or-field choice, trims non-empty), exactly
one backend pipeline entry point is invoked: the edit endpoint with the
prompt as modification_prompt precisely when an architecture is loaded, and
otherwise the generate endpoint with the prompt as natural_language_input. -/
theorem chat_dispatch_exactly_one (projectId : Nat) (architecture : LoadedArchitecture)
    (promptField : String) (retryPrompt : Option String) :
    (match retryPrompt with
      | some r => if r = "" then promptField else r
      | none => promptField).data.all Char.isWhitespace = false →
    (∀ a, architecture = .loaded a →
      handleGenerate projectId architecture promptField retryPrompt =
        some { path := "/projects/" ++ toString projectId ++ "/edit",
               bodyField := "modification_prompt",
               bodyValue := match retryPrompt with
                 | some r => if r = "" then promptField else r
                 | none => promptField }) ∧
    (architecture = .none →
      handleGenerate projectId architecture promptField retryPrompt =
        some { path := "/projects/" ++ toString projectId ++ "/generate",
               bodyField := "natural_language_input",
               bodyValue := match retryPrompt with
                 | some r => if r = "" then promptField else r
                 | none => promptField }) := by
  intro htrim
  constructor
  · intro a ha
    subst ha
    simp only [handleGenerate, htrim, Bool.false_eq_true, if_false]
    rfl
  · intro ha
    subst ha
    simp only [handleGenerate, htrim, Bool.false_eq_true, if_false]
    rfl

/-- Witness for C10: a concrete prompt dispatched once with an architecture
loaded (edit) and once without (generate). -/
theorem chat_dispatch_exactly_one_witness :
    handleGenerate 5 (.loaded cycleScenario) "add a cache" none =
      some { path := "/projects/" ++ toString 5 ++ "/edit",
             bodyField := "modification_prompt", bodyValue := "add a cache" } ∧
    handleGenerate 5 .none "add a cache" none =
      some { path := "/projects/" ++ toString 5 ++ "/generate",
             bodyField := "natural_language_input", bodyValue := "add a cache" } :=
  ⟨(chat_dispatch_exactly_one 5 (.loaded cycleScenario) "add a cache" none
      (by decide)).1 cycleScenario rfl,
   (chat_dispatch_exactly_one 5 .none "add a cache" none (by decide)).2 rfl⟩
